import Mathlib

/-!
# Verification of the video_merger_modular batch engine

A shallow embedding of the core components of the repository:

* `src/core/sequence_selector.py` — `SequenceDiversitySelector` (constructor,
  `_extract_consecutive_pairs`, `_is_valid_sequence`, `_record_sequence`,
  `get_next_combination`, `get_next_combination_from_allowed`, `load_state`).
* `src/core/task_manager.py` — `generate_unique_filename_for_task`,
  `TaskStatus`, `FailureReason`, `TaskInfo`, save/load of persisted task
  state, `_estimate_remaining_time`, `get_job_statistics`,
  `RobustTaskExecutor.execute_task` (failure branch), `ErrorClassifier.should_retry`.
* `src/core/resource_manager.py` — `_delete_file_with_retry`,
  `_delete_moviepy_temp_file_with_retry`, `_schedule_delayed_cleanup`.
* `src/core/process_controller.py` — `ProcessController.cancel_all`,
  `ProcessController._cleanup_files`.

Python's randomness (`random.choices`, `random.sample`), the real clock
(`datetime.now`), and the filesystem are modelled as explicit oracles; the
postcondition of `random.sample` (a selection of distinct *positions* of the
population) is captured by the predicate `SampleOf`.  Python floats are
modelled as rationals; Python ints as `Int`/`Nat` as appropriate.
-/

/-! ## Error classifier (`src/core/task_manager.py`, `ErrorClassifier`) -/

/-- `TaskStatus` enum of `task_manager.py`; the string is the enum `.value`. -/
inductive TaskStatus where
  | pending
  | running
  | completed
  | failed
  | cancelled
  | retrying
deriving DecidableEq, Repr

/-- `FailureReason` enum of `task_manager.py`. -/
inductive FailureReason where
  | unknown
  | fileNotFound
  | insufficientMemory
  | diskFull
  | permissionDenied
  | ffmpegError
  | timeout
  | corruption
deriving DecidableEq, Repr

/-- `ErrorClassifier.should_retry` (`task_manager.py` lines 513–530):
`FILE_NOT_FOUND`, `PERMISSION_DENIED` and `CORRUPTION` never retry;
`DISK_FULL` does not retry once `retry_count >= 1`; everything else retries
while `retry_count < 3`. -/
def shouldRetry (failureReason : FailureReason) (retryCount : Nat) : Bool :=
  if failureReason = .fileNotFound ∨ failureReason = .permissionDenied ∨
      failureReason = .corruption then
    false
  else if failureReason = .diskFull ∧ 1 ≤ retryCount then
    false
  else
    decide (retryCount < 3)

/-- The `TaskInfo` dataclass of `task_manager.py`.  Python floats
(`progress`, durations) are modelled as rationals, timestamps as the
ISO strings the code stores. -/
structure TaskInfo where
  taskId : String
  inputFiles : List String
  outputPath : String
  outputNumber : Int
  status : TaskStatus
  progress : ℚ
  createdTime : String
  startedTime : Option String
  completedTime : Option String
  retryCount : Nat
  maxRetries : Nat
  failureReason : Option FailureReason
  errorMessage : String
  estimatedDuration : ℚ
  actualDuration : ℚ
deriving DecidableEq, Repr

/-- `TaskStatus.value`: the string each enum member serializes to. -/
def taskStatusValue : TaskStatus → String
  | .pending => "pending"
  | .running => "running"
  | .completed => "completed"
  | .failed => "failed"
  | .cancelled => "cancelled"
  | .retrying => "retrying"

/-- `TaskStatus(s)`: Python enum lookup by value; raises (here `none`) for an
unknown string. -/
def taskStatusOfValue (s : String) : Option TaskStatus :=
  if s = "pending" then some .pending
  else if s = "running" then some .running
  else if s = "completed" then some .completed
  else if s = "failed" then some .failed
  else if s = "cancelled" then some .cancelled
  else if s = "retrying" then some .retrying
  else none

/-- `FailureReason.value`. -/
def failureReasonValue : FailureReason → String
  | .unknown => "unknown"
  | .fileNotFound => "file_not_found"
  | .insufficientMemory => "insufficient_memory"
  | .diskFull => "disk_full"
  | .permissionDenied => "permission_denied"
  | .ffmpegError => "ffmpeg_error"
  | .timeout => "timeout"
  | .corruption => "corruption"

/-- `FailureReason(s)`: enum lookup by value. -/
def failureReasonOfValue (s : String) : Option FailureReason :=
  if s = "unknown" then some .unknown
  else if s = "file_not_found" then some .fileNotFound
  else if s = "insufficient_memory" then some .insufficientMemory
  else if s = "disk_full" then some .diskFull
  else if s = "permission_denied" then some .permissionDenied
  else if s = "ffmpeg_error" then some .ffmpegError
  else if s = "timeout" then some .timeout
  else if s = "corruption" then some .corruption
  else none

/-- One task entry of the persisted JSON (`save_state`, lines 244–271):
identical to `TaskInfo` except that the two enum fields are stored as their
string `.value` (and `failure_reason` may be JSON `null`). -/
structure SavedTaskInfo where
  taskId : String
  inputFiles : List String
  outputPath : String
  outputNumber : Int
  status : String
  progress : ℚ
  createdTime : String
  startedTime : Option String
  completedTime : Option String
  retryCount : Nat
  maxRetries : Nat
  failureReason : Option String
  errorMessage : String
  estimatedDuration : ℚ
  actualDuration : ℚ
deriving DecidableEq, Repr

/-- `TaskManager.save_state`, per-task part: `asdict(task)` with the two enum
fields replaced by their `.value`. -/
def saveTaskInfo (t : TaskInfo) : SavedTaskInfo :=
  { taskId := t.taskId
    inputFiles := t.inputFiles
    outputPath := t.outputPath
    outputNumber := t.outputNumber
    status := taskStatusValue t.status
    progress := t.progress
    createdTime := t.createdTime
    startedTime := t.startedTime
    completedTime := t.completedTime
    retryCount := t.retryCount
    maxRetries := t.maxRetries
    failureReason := t.failureReason.map failureReasonValue
    errorMessage := t.errorMessage
    estimatedDuration := t.estimatedDuration
    actualDuration := t.actualDuration }

/-- `TaskManager.load_job`, per-task part (lines 231–236):
`TaskInfo(**task_data)` followed by `task.status = TaskStatus(task.status)`
and, when `task.failure_reason` is truthy, conversion via
`FailureReason(...)`.  An invalid enum string raises, which makes the whole
load fail (`none`).  (A saved `failure_reason` of `""` would be left
unconverted by the Python truthiness check; `save_state` never produces it,
so it is mapped to `none` here.) -/
def loadTaskInfo (d : SavedTaskInfo) : Option TaskInfo :=
  match taskStatusOfValue d.status with
  | none => none
  | some st =>
    let base : Option FailureReason → TaskInfo := fun fr =>
      { taskId := d.taskId
        inputFiles := d.inputFiles
        outputPath := d.outputPath
        outputNumber := d.outputNumber
        status := st
        progress := d.progress
        createdTime := d.createdTime
        startedTime := d.startedTime
        completedTime := d.completedTime
        retryCount := d.retryCount
        maxRetries := d.maxRetries
        failureReason := fr
        errorMessage := d.errorMessage
        estimatedDuration := d.estimatedDuration
        actualDuration := d.actualDuration }
    match d.failureReason with
    | none => some (base none)
    | some s =>
      if s = "" then some (base none)
      else
        match failureReasonOfValue s with
        | none => none
        | some fr => some (base (some fr))

/-- `save_state` over the task list (`[asdict(task) for task in
self.tasks.values()]` with enum fields stringified). -/
def saveStateTasks (tasks : List TaskInfo) : List SavedTaskInfo :=
  tasks.map saveTaskInfo

/-- `load_job` over the task list: each entry is reconstructed; any exception
(invalid enum value) aborts the whole load (`load_job` returns `False`). -/
def loadJobTasks : List SavedTaskInfo → Option (List TaskInfo)
  | [] => some []
  | d :: ds =>
    match loadTaskInfo d, loadJobTasks ds with
    | some t, some ts => some (t :: ts)
    | _, _ => none

/-! ### Statistics (`TaskManager.get_job_statistics` / `_estimate_remaining_time`) -/

/-- `TaskManager._estimate_remaining_time` (lines 411–423): the mean
`actual_duration` of tasks that are `COMPLETED` *and* have
`actual_duration > 0`, multiplied by the number of `PENDING` or `RUNNING`
tasks; `0.0` when no completed task has positive duration. -/
def estimateRemainingTime (tasks : List TaskInfo) : ℚ :=
  let completedTasks := tasks.filter fun t =>
    decide (t.status = .completed) && decide ((0 : ℚ) < t.actualDuration)
  if completedTasks.isEmpty then 0
  else
    let avgDuration := (completedTasks.map (·.actualDuration)).sum / completedTasks.length
    let remainingTasks := tasks.countP fun t =>
      decide (t.status = .pending) || decide (t.status = .running)
    avgDuration * remainingTasks

/-- The dictionary returned by `TaskManager.get_job_statistics`. -/
structure JobStatistics where
  totalTasks : Nat
  completed : Nat
  failed : Nat
  pending : Nat
  running : Nat
  overallProgress : ℚ
  estimatedRemainingTime : ℚ
deriving Repr

/-- `TaskManager.get_job_statistics` (lines 394–409). `overallProgress` is the
job's `total_progress` field (passed in here); the guard `if not
self.current_job or not self.tasks: return {}` is the `none` case. -/
def getJobStatistics (jobProgress : ℚ) (tasks : List TaskInfo) : Option JobStatistics :=
  if tasks.isEmpty then none
  else
    some
      { totalTasks := tasks.length
        completed := tasks.countP fun t => decide (t.status = .completed)
        failed := tasks.countP fun t => decide (t.status = .failed)
        pending := tasks.countP fun t => decide (t.status = .pending)
        running := tasks.countP fun t => decide (t.status = .running)
        overallProgress := jobProgress
        estimatedRemainingTime := estimateRemainingTime tasks }

/-- Modelled from the spec claim C4 (`GetStatistics` sentence of §4.2): the
arithmetic mean of the actual durations of **all** `Completed` tasks,
multiplied by the number of tasks that are **not yet** `Completed`; `0` when
no task has completed.  (Kept separate from the source-derived
`estimateRemainingTime` so the two can be compared.) -/
def specEstimatedRemainingTime (tasks : List TaskInfo) : ℚ :=
  let completedTasks := tasks.filter fun t => decide (t.status = .completed)
  if completedTasks.isEmpty then 0
  else
    ((completedTasks.map (·.actualDuration)).sum / completedTasks.length) *
      (tasks.countP fun t => decide (¬t.status = .completed))

/-- The amended remaining-time formula for C4, written from the amended
claim's words: average over the positive actual durations of completed
tasks, times the number of pending-or-running tasks. -/
def amendedRemainingTime (tasks : List TaskInfo) : ℚ :=
  let durations := ((tasks.filter fun t => decide (t.status = .completed)).map
      (·.actualDuration)).filter fun d => decide ((0 : ℚ) < d)
  if durations.length = 0 then 0
  else
    (durations.sum / durations.length) *
      (tasks.countP fun t => decide (t.status = .pending) || decide (t.status = .running))

/-! ### Retry executor (`RobustTaskExecutor.execute_task`, failure branch) -/

/-- `TaskManager.mark_task_failed` (state change on the task record; the
retry-scheduling side effect flips the status back to `PENDING` later and
does not touch the retry counter). -/
def markTaskFailed (t : TaskInfo) (errorMessage : String) (failureReason : FailureReason) :
    TaskInfo :=
  { t with status := .failed, errorMessage := errorMessage,
           failureReason := some failureReason }

/-- The `except` branch of `RobustTaskExecutor.execute_task` (lines 471–486),
parametrized by the already-classified failure reason: query
`should_retry` against the *pre*-increment `retry_count`, increment
`retry_count`, force it to `max_retries` when retry is forbidden, then
`mark_task_failed`. -/
def executeTaskFailure (t : TaskInfo) (failureReason : FailureReason) (msg : String) :
    TaskInfo :=
  let retryAllowed := shouldRetry failureReason t.retryCount
  let t1 := { t with retryCount := t.retryCount + 1 }
  let t2 := if retryAllowed then t1 else { t1 with retryCount := t1.maxRetries }
  markTaskFailed t2 msg failureReason

/-- A sequence of failing executions routed through the executor. -/
def executeFailureSeq (t : TaskInfo) : List (FailureReason × String) → TaskInfo
  | [] => t
  | (r, m) :: rest => executeFailureSeq (executeTaskFailure t r m) rest

/-! ### Unique output filenames (`generate_unique_filename_for_task`, lines 17–53) -/

/-- `f"{counter:03d}"` for the counter values the loop can produce. -/
def pad3 (n : Nat) : String :=
  (if n < 10 then "00" else if n < 100 then "0" else "") ++ toString n

/-- `os.path.join(output_folder, filename)`. -/
def joinPath (folder name : String) : String := folder ++ "/" ++ name

/-- `f"{base_name}_{timestamp}_{counter:03d}.{extension}"`. -/
def counterFilename (baseName timestamp extension : String) (counter : Nat) : String :=
  baseName ++ "_" ++ timestamp ++ "_" ++ pad3 counter ++ "." ++ extension

/-- `f"{base_name}_{microsecond_timestamp}.{extension}"`. -/
def fallbackFilename (baseName microTimestamp extension : String) : String :=
  baseName ++ "_" ++ microTimestamp ++ "." ++ extension

/-- The `while True` loop of `generate_unique_filename_for_task`: try
`mk counter`; return it if it does not exist, otherwise increment; once the
counter passes 999 (`fuel` exhausted) return the fallback name *without an
existence check*. -/
def uniqueFilenameLoop (fsExists : String → Bool) (mk : Nat → String) (fallback : String) :
    Nat → Nat → String
  | _, 0 => fallback
  | counter, fuel + 1 =>
    if fsExists (mk counter) then uniqueFilenameLoop fsExists mk fallback (counter + 1) fuel
    else mk counter

/-- `generate_unique_filename_for_task(output_folder, base_name, extension)`.
The filesystem (`os.path.exists`) and the two `datetime.now().strftime`
results (second- and microsecond-resolution timestamps) are oracles. -/
def generateUniqueFilenameForTask (fsExists : String → Bool)
    (outputFolder baseName timestamp microTimestamp extension : String) : String :=
  uniqueFilenameLoop fsExists
    (fun c => joinPath outputFolder (counterFilename baseName timestamp extension c))
    (joinPath outputFolder (fallbackFilename baseName microTimestamp extension))
    1 999

/-! ### Resource reclaimer (`src/core/resource_manager.py`) -/

/-- Outcome of one `os.unlink` attempt: success, a `PermissionError` carrying
the Windows file-locking marker (`WinError 32` / "being used by another
process"), or any other exception. -/
inductive UnlinkOutcome where
  | ok
  | lockedError
  | otherError
deriving DecidableEq, Repr

/-- How a `_delete_*_with_retry` call ends. -/
inductive DeleteResult where
  | deleted
  | raisedLocked
  | raisedOther
  | loopExhausted
deriving DecidableEq, Repr

/-- The shared retry loop of `_delete_file_with_retry` (lines 208–227) and
`_delete_moviepy_temp_file_with_retry` (lines 243–270), parametrized by the
per-attempt unlink outcome and the per-attempt wait formula.  Returns the
list of sleep durations (seconds), whether `_schedule_delayed_cleanup` was
called, and how the call ended.  On a locking failure at the last attempt the
code schedules the delayed cleanup and re-raises; any other failure re-raises
immediately.  (`rem + 1` remaining iterations means the current attempt is
the last one exactly when `rem = 0`, i.e. `attempt = max_retries - 1`.) -/
def deleteRetryLoop (outcome : Nat → UnlinkOutcome) (wait : Nat → ℚ) :
    Nat → Nat → List ℚ × Bool × DeleteResult
  | _, 0 => ([], false, .loopExhausted)
  | attempt, rem + 1 =>
    match outcome attempt with
    | .ok => ([], false, .deleted)
    | .otherError => ([], false, .raisedOther)
    | .lockedError =>
      if rem = 0 then ([], true, .raisedLocked)
      else
        let r := deleteRetryLoop outcome wait (attempt + 1) rem
        (wait attempt :: r.1, r.2.1, r.2.2)

/-- Wait formula of `_delete_file_with_retry`: `time.sleep(0.5 * (attempt + 1))`. -/
def generalDeleteWait (attempt : Nat) : ℚ := (1 / 2) * ((attempt : ℚ) + 1)

/-- Wait formula of `_delete_moviepy_temp_file_with_retry`:
`min(2.0 ** attempt, 10.0)`. -/
def moviepyDeleteWait (attempt : Nat) : ℚ := min ((2 : ℚ) ^ attempt) 10

/-- `ResourceManager._delete_file_with_retry(file_path, max_retries=5)`. -/
def deleteFileWithRetry (outcome : Nat → UnlinkOutcome) (maxRetries : Nat) :
    List ℚ × Bool × DeleteResult :=
  deleteRetryLoop outcome generalDeleteWait 0 maxRetries

/-- `ResourceManager._delete_moviepy_temp_file_with_retry(file_path,
max_retries=8)`.  (The `_unlock_file_handles` call made when `attempt > 2` is
an OS-level side effect with no bearing on the waits or the result.) -/
def deleteMoviepyTempFileWithRetry (outcome : Nat → UnlinkOutcome) (maxRetries : Nat) :
    List ℚ × Bool × DeleteResult :=
  deleteRetryLoop outcome moviepyDeleteWait 0 maxRetries

/-- `ResourceManager._schedule_delayed_cleanup` (lines 229–241): the detached
thread sleeps 5 seconds, unlinks the file if it still exists, and swallows
any error.  Result: (sleep duration, whether the file got deleted, whether an
exception propagates out of the thread — never). -/
def delayedCleanup (fileStillExists unlinkRaises : Bool) : ℚ × Bool × Bool :=
  (5, fileStillExists && !unlinkRaises, false)

/-! ### Process supervisor (`src/core/process_controller.py`) -/

/-- `os.stat` result, reduced to the two fields `_cleanup_files` reads. -/
structure FileStat where
  stSize : Nat
  stMtime : ℚ
deriving DecidableEq, Repr

/-- A filesystem snapshot: path to stat, `none` when the path does not exist. -/
def FileSystem : Type := String → Option FileStat

/-- `os.unlink`. -/
def unlinkFile (fs : FileSystem) (path : String) : FileSystem :=
  fun q => if q = path then none else fs q

/-- One iteration of the temp-file loop of `_cleanup_files` (lines 117–122):
`if os.path.exists(temp_file): os.unlink(temp_file)`. -/
def cleanupTempStep (fs : FileSystem) (path : String) : FileSystem :=
  if (fs path).isSome then unlinkFile fs path else fs

/-- The incomplete-output heuristic of `_cleanup_files` (line 133): size below
1MB or modified within the last 30 seconds. -/
def incompleteOutput (now : ℚ) (st : FileStat) : Prop :=
  st.stSize < 1024 * 1024 ∨ now - st.stMtime < 30

instance (now : ℚ) (st : FileStat) : Decidable (incompleteOutput now st) := by
  unfold incompleteOutput; infer_instance

/-- One iteration of the output-file loop of `_cleanup_files` (lines 125–136):
delete an existing output that looks incomplete. -/
def cleanupOutputStep (now : ℚ) (fs : FileSystem) (path : String) : FileSystem :=
  match fs path with
  | none => fs
  | some st => if incompleteOutput now st then unlinkFile fs path else fs

/-- `ProcessController._cleanup_files` (lines 114–140): unlink every
registered temp file, then every registered output file that exists and looks
incomplete.  (The clearing of the two registration lists is reflected in
`cancelAll`'s result.) -/
def cleanupFiles (now : ℚ) (fs : FileSystem) (tempFiles outputFiles : List String) :
    FileSystem :=
  outputFiles.foldl (cleanupOutputStep now) (tempFiles.foldl cleanupTempStep fs)

/-- `ProcessController.cancel_all(timeout)` (lines 57–112).  Processes are
identifiers; `gracefulExit p` says `p` exits on `terminate()` before the
phase-2 check (`poll()` non-`None`); `polledOff p` says the 100ms polling loop
reached and removed `p` (timing oracle — only ever true for exited
processes).  If no process is tracked the call returns `True` immediately,
*without* running `_cleanup_files`.  Otherwise: phase 1 removes the polled-off
exited processes; phase 2 kills every still-running process and removes it in
its `finally`, but leaves already-exited, never-polled processes in the list;
then, when `_cleanup_on_cancel` is set, `_cleanup_files` runs.  Returns
(return value, filesystem, remaining `_active_processes`, remaining
`_temp_files`, remaining `_output_files`). -/
def cancelAll (procs : List Nat) (gracefulExit polledOff : Nat → Bool)
    (cleanupOnCancel : Bool) (now : ℚ) (fs : FileSystem)
    (tempFiles outputFiles : List String) :
    Bool × FileSystem × List Nat × List String × List String :=
  if procs.isEmpty then (true, fs, procs, tempFiles, outputFiles)
  else
    let afterPoll := procs.filter fun p => !(gracefulExit p && polledOff p)
    let remaining := afterPoll.filter fun p => gracefulExit p
    let fs' := if cleanupOnCancel then cleanupFiles now fs tempFiles outputFiles else fs
    let tempFiles' := if cleanupOnCancel then [] else tempFiles
    let outputFiles' := if cleanupOnCancel then [] else outputFiles
    (remaining.isEmpty, fs', remaining, tempFiles', outputFiles')

/-! ### Diversity selector (`src/core/sequence_selector.py`) -/

/-- The mutable state of a `SequenceDiversitySelector`: `materials`,
`per_video`, the two dedup sets (represented as lists, queried only through
membership) and the `material_count` defaultdict. -/
structure SelectorState (α : Type) where
  materials : List α
  perVideo : Nat
  usedSequences : List (List α)
  usedPairs : List (α × α)
  materialCount : α → Nat

/-- `_extract_consecutive_pairs` (lines 56–72): all ordered adjacent
2-element subsequences. -/
def extractConsecutivePairs {α : Type} : List α → List (α × α)
  | [] => []
  | [_] => []
  | a :: b :: rest => (a, b) :: extractConsecutivePairs (b :: rest)

/-- `_is_valid_sequence` (lines 74–95): the full tuple must be new, and none
of its adjacent pairs may have been used. -/
def isValidSequence {α : Type} [DecidableEq α] (st : SelectorState α) (sequence : List α) :
    Bool :=
  if sequence ∈ st.usedSequences then false
  else if (extractConsecutivePairs sequence).any (fun p => decide (p ∈ st.usedPairs)) then
    false
  else true

/-- `_record_sequence` (lines 97–119): add the tuple, its adjacent pairs, and
bump the usage counters.  (The auto-save to the persistence file is a pure
write side effect.) -/
def recordSequence {α : Type} [DecidableEq α] (st : SelectorState α) (sequence : List α) :
    SelectorState α :=
  { st with
    usedSequences := sequence :: st.usedSequences
    usedPairs := extractConsecutivePairs sequence ++ st.usedPairs
    materialCount := fun m => st.materialCount m + sequence.count m }

/-- The fresh state set up by `__init__` before any persistence load. -/
def initState {α : Type} (materials : List α) (perVideo : Nat) : SelectorState α :=
  { materials := materials
    perVideo := perVideo
    usedSequences := []
    usedPairs := []
    materialCount := fun _ => 0 }

/-- The content of a dedup persistence file (`save_state` format, version
`"1.0"`): `none` stands for "no persistence file given, file missing, or
unparsable/not versioned". -/
structure PersistedDedupState (α : Type) where
  materials : List α
  perVideo : Int
  usedSequences : List (List α)
  usedPairs : List (α × α)
  materialCount : List (α × Nat)

/-- `set(a) == set(b)` on Python lists. -/
def sameElements {α : Type} [DecidableEq α] (a b : List α) : Bool :=
  a.all (fun x => decide (x ∈ b)) && b.all (fun x => decide (x ∈ a))

/-- `load_state` (lines 299–342): adopt the saved dedup state only when the
saved material *set* and `per_video` match the constructor arguments;
otherwise (or on any parse failure, the `none` case) keep the fresh state. -/
def loadState {α : Type} [DecidableEq α] (st : SelectorState α) (perVideoArg : Int) :
    Option (PersistedDedupState α) → SelectorState α
  | none => st
  | some saved =>
    if sameElements saved.materials st.materials && decide (saved.perVideo = perVideoArg) then
      { st with
        usedSequences := saved.usedSequences
        usedPairs := saved.usedPairs
        materialCount := fun m => ((saved.materialCount.find? fun e => decide (e.1 = m)).map
          Prod.snd).getD 0 }
    else st

/-- `SequenceDiversitySelector.__init__` (lines 26–54): store the arguments,
raise `ValueError` for an empty material list, a non-positive `per_video`, or
`per_video` larger than the material count; then, when a persistence file was
given, run `load_state`. -/
def mkSelector {α : Type} [DecidableEq α] (allMaterials : List α) (perVideo : Int)
    (persisted : Option (PersistedDedupState α)) : Except String (SelectorState α) :=
  if allMaterials.isEmpty then .error "素材列表不能为空"
  else if perVideo ≤ 0 then .error "每条视频的素材数量必须大于0"
  else if (allMaterials.length : Int) < perVideo then .error "每条视频的素材数量不能超过总素材数量"
  else .ok (loadState (initState allMaterials perVideo.toNat) perVideo persisted)

/-- The deduplication of the weighted candidate pool (lines 150–156 and
215–221): keep the first occurrence of each item, preserving order. -/
def uniquePoolAux {α : Type} [DecidableEq α] : List α → List α → List α
  | [], _ => []
  | x :: xs, seen =>
    if x ∈ seen then uniquePoolAux xs seen else x :: uniquePoolAux xs (x :: seen)

/-- `unique_pool` built from a `weighted_pool`. -/
def uniquePool {α : Type} [DecidableEq α] (weightedPool : List α) : List α :=
  uniquePoolAux weightedPool []

/-- Postcondition of `random.sample(pop, k)`: the result reads `k` *distinct
positions* of the population (so duplicated population values can repeat in
the result, but a duplicate-free population yields a duplicate-free
sample). -/
def SampleOf {α : Type} [Inhabited α] (pop : List α) (k : Nat) (sel : List α) : Prop :=
  ∃ idxs : List Nat, idxs.Nodup ∧ idxs.length = k ∧ (∀ i ∈ idxs, i < pop.length) ∧
    sel = idxs.map fun i => pop.getD i default

/-- A deterministic function satisfying `SampleOf` whenever `k ≤ pop.length`:
take the first `k` elements.  Used to instantiate sampling oracles. -/
def takeSample {α : Type} [Inhabited α] (pop : List α) (k : Nat) : List α :=
  (List.range k).map fun i => pop.getD i default

/-- The random oracles one `get_next_combination` call consumes: per attempt
`i`, `weightedPool i` is the `random.choices` output and `sample i pop k` the
`random.sample(pop, k)` result (`sample maxTries` is the post-loop fallback
sample).  The selection weights and the pool size only shape the random
distribution, so they live in the oracle, not in the embedding. -/
structure SelOracle (α : Type) where
  weightedPool : Nat → List α
  sample : Nat → List α → Nat → List α

/-- Lines 141–167 / 209–226: dedup the weighted pool; sample `per_video`
items from it when it is large enough, otherwise from the full candidate
list. -/
def attemptSelect {α : Type} [DecidableEq α] (st : SelectorState α) (candidates : List α)
    (weightedPool : List α) (sample : List α → Nat → List α) : List α :=
  let pool := uniquePool weightedPool
  if st.perVideo ≤ pool.length then sample pool st.perVideo
  else sample candidates st.perVideo

/-- `max_tries = 30`. -/
def maxTries : Nat := 30

/-- The `for attempt in range(max_tries)` loop shared by both generators:
return the first sampled draw that `_is_valid_sequence` accepts, `none` when
the attempt budget is exhausted. -/
def tryAttempts {α : Type} [DecidableEq α] (st : SelectorState α) (candidates : List α)
    (o : SelOracle α) : Nat → Nat → Option (List α)
  | _, 0 => none
  | i, fuel + 1 =>
    let selected := attemptSelect st candidates (o.weightedPool i) (o.sample i)
    if isValidSequence st selected then some selected
    else tryAttempts st candidates o (i + 1) fuel

/-- The body of `get_next_combination` after its material-count guard:
validated draw or unconstrained fallback sample, in either case recorded. -/
def getNextCore {α : Type} [DecidableEq α] (st : SelectorState α) (o : SelOracle α) :
    List α × SelectorState α :=
  match tryAttempts st st.materials o 0 maxTries with
  | some selected => (selected, recordSequence st selected)
  | none =>
    let selected := o.sample maxTries st.materials st.perVideo
    (selected, recordSequence st selected)

/-- `get_next_combination` (lines 121–185): `none` is the `RuntimeError`
raised when fewer materials than `per_video` are available. -/
def getNextCombination {α : Type} [DecidableEq α] (st : SelectorState α) (o : SelOracle α) :
    Option (List α × SelectorState α) :=
  if st.materials.length < st.perVideo then none
  else some (getNextCore st o)

/-- `get_next_combination_from_allowed` (lines 187–235): restrict the
candidates to the allowed subset (preserving `materials` order), keep the
shared dedup state; `none` covers the two `RuntimeError`s (empty allowed set,
not enough candidates). -/
def getNextCombinationFromAllowed {α : Type} [DecidableEq α] (st : SelectorState α)
    (allowedMaterials : List α) (o : SelOracle α) : Option (List α × SelectorState α) :=
  if allowedMaterials.isEmpty then none
  else
    let candidates := st.materials.filter fun m => decide (m ∈ allowedMaterials)
    if candidates.length < st.perVideo then none
    else
      match tryAttempts st candidates o 0 maxTries with
      | some selected => some (selected, recordSequence st selected)
      | none =>
        let selected := o.sample maxTries candidates st.perVideo
        some (selected, recordSequence st selected)

/-- Repeated calls to `get_next_combination` on one instance (used only below
the material-count guard, which is state-invariant): the state after the
first `n` calls. -/
def stateAfter {α : Type} [DecidableEq α] (st : SelectorState α) : List (SelOracle α) →
    SelectorState α
  | [] => st
  | o :: os => stateAfter (getNextCore st o).2 os

/-- The default (empty) oracle, for out-of-range indexing. -/
def emptyOracle {α : Type} : SelOracle α :=
  { weightedPool := fun _ => [], sample := fun _ _ _ => [] }

/-- The list returned by the `i`-th call (0-based) in a call sequence. -/
def resultAt {α : Type} [DecidableEq α] (st : SelectorState α) (os : List (SelOracle α))
    (i : Nat) : List α :=
  (getNextCore (stateAfter st (os.take i)) (os.getD i emptyOracle)).1

/-! ## Theorems -/

/-- **C2.** `should_retry` never retries `FILE_NOT_FOUND`, `PERMISSION_DENIED`
or `CORRUPTION`; retries `DISK_FULL` exactly when `retry_count = 0`; and
retries every other reason exactly while `retry_count < 3`.  In particular
`should_retry(UNKNOWN, 2) = true`, `should_retry(UNKNOWN, 3) = false` and
`should_retry(DISK_FULL, 1) = false`. -/
theorem shouldRetry_policy_table (n : Nat) :
    shouldRetry .fileNotFound n = false ∧
    shouldRetry .permissionDenied n = false ∧
    shouldRetry .corruption n = false ∧
    (shouldRetry .diskFull n = true ↔ n = 0) ∧
    (shouldRetry .unknown n = true ↔ n < 3) ∧
    (shouldRetry .insufficientMemory n = true ↔ n < 3) ∧
    (shouldRetry .ffmpegError n = true ↔ n < 3) ∧
    (shouldRetry .timeout n = true ↔ n < 3) ∧
    shouldRetry .unknown 2 = true ∧
    shouldRetry .unknown 3 = false ∧
    shouldRetry .diskFull 1 = false := by
  refine ⟨rfl, rfl, rfl, ?_, ?_, ?_, ?_, ?_, rfl, rfl, rfl⟩
  all_goals simp [shouldRetry]
  all_goals omega

/-- A witness call of the retry policy at concrete inputs. -/
theorem shouldRetry_policy_table_witness :
    shouldRetry .fileNotFound 7 = false ∧ shouldRetry .diskFull 1 = false :=
  ⟨(shouldRetry_policy_table 7).1, (shouldRetry_policy_table 1).2.2.2.2.2.2.2.2.2.2⟩

/-! ### C7: persisted task state round-trips -/

theorem loadTaskInfo_saveTaskInfo (t : TaskInfo) : loadTaskInfo (saveTaskInfo t) = some t := by
  obtain ⟨tid, fis, op, onum, st, pr, ct, stt, cpt, rc, mr, fr, em, ed, ad⟩ := t
  cases st <;> rcases fr with _ | fr <;> first | rfl | (cases fr <;> rfl)

/-- **C7.** Saving a job's tasks and loading them back succeeds and
reproduces every task exactly — in particular each task's status, retry
count and failure reason (enum fields travel as their string value). -/
theorem persistedTaskState_roundTrip (tasks : List TaskInfo) :
    loadJobTasks (saveStateTasks tasks) = some tasks := by
  induction tasks with
  | nil => rfl
  | cons t rest ih =>
    simp only [saveStateTasks, List.map] at ih ⊢
    simp only [loadJobTasks, loadTaskInfo_saveTaskInfo t, ih]

/-- A failed task carrying every kind of field the persistence format stores. -/
def roundTripSampleTask : TaskInfo :=
  { taskId := "job_1_task_0001", inputFiles := ["a.mp4", "b.mp4"],
    outputPath := "out/merged_001.mp4", outputNumber := 1,
    status := .failed, progress := 1/2, createdTime := "2024-01-01T00:00:00",
    startedTime := some "2024-01-01T00:00:01", completedTime := none,
    retryCount := 2, maxRetries := 3, failureReason := some .diskFull,
    errorMessage := "no space left", estimatedDuration := 10,
    actualDuration := 0 }

/-- A witness run of the round-trip on a concrete task list. -/
theorem persistedTaskState_roundTrip_witness :
    loadJobTasks (saveStateTasks [roundTripSampleTask]) = some [roundTripSampleTask] :=
  persistedTaskState_roundTrip [roundTripSampleTask]

/-! ### C4: estimated remaining time -/

/-- A task record with the given status and actual duration (all other
fields inert). -/
def plainTask (status : TaskStatus) (actualDuration : ℚ) : TaskInfo :=
  { taskId := "t", inputFiles := [], outputPath := "", outputNumber := 0,
    status := status, progress := 0, createdTime := "", startedTime := none,
    completedTime := none, retryCount := 0, maxRetries := 3,
    failureReason := none, errorMessage := "", estimatedDuration := 0,
    actualDuration := actualDuration }

/-- **C4, counterexample.**  With one completed task of duration 2 and one
failed task, the claim's formula (mean of completed durations × tasks not
yet completed) gives 2, but the code counts only `PENDING`/`RUNNING` tasks
as remaining and returns 0. -/
theorem estimateRemainingTime_spec_formula_cex :
    estimateRemainingTime [plainTask .completed 2, plainTask .failed 0] = 0 ∧
    specEstimatedRemainingTime [plainTask .completed 2, plainTask .failed 0] = 2 ∧
    (0 : ℚ) ≠ 2 := by
  refine ⟨?_, ?_, by norm_num⟩ <;>
    norm_num [estimateRemainingTime, specEstimatedRemainingTime, plainTask,
      List.filter_cons, List.countP_cons] <;>
    simp

theorem estimateRemainingTime_eq_amended (tasks : List TaskInfo) :
    estimateRemainingTime tasks = amendedRemainingTime tasks := by
  unfold estimateRemainingTime amendedRemainingTime
  have hmap : ((tasks.filter fun t => decide (t.status = .completed)).map
        (·.actualDuration)).filter (fun d => decide ((0 : ℚ) < d)) =
      (tasks.filter fun t =>
        decide (t.status = .completed) && decide ((0 : ℚ) < t.actualDuration)).map
        (·.actualDuration) := by
    induction tasks with
    | nil => rfl
    | cons t rest ih =>
      by_cases h1 : t.status = .completed <;> by_cases h2 : (0 : ℚ) < t.actualDuration <;>
        simp [h1, h2, ih]
  rw [hmap]
  by_cases h : (tasks.filter fun t =>
      decide (t.status = .completed) && decide ((0 : ℚ) < t.actualDuration)) = []
  · simp [h]
  · simp [h, List.isEmpty_iff, List.length_eq_zero]

/-- **C4, amended.**  `get_job_statistics` is defined whenever the task map
is non-empty, and its `estimated_remaining_time` equals the mean of the
*positive* actual durations of `COMPLETED` tasks multiplied by the number of
`PENDING` or `RUNNING` tasks (0 when no completed task has positive
duration) — not by the number of all not-yet-completed tasks. -/
theorem getJobStatistics_estimated_remaining_time (jobProgress : ℚ)
    (tasks : List TaskInfo) (h : tasks ≠ []) :
    ∃ s, getJobStatistics jobProgress tasks = some s ∧
      s.estimatedRemainingTime = amendedRemainingTime tasks := by
  unfold getJobStatistics
  rw [if_neg (by simpa [List.isEmpty_iff] using h)]
  exact ⟨_, rfl, estimateRemainingTime_eq_amended tasks⟩

/-- A witness call of the amended C4 statement on a concrete store. -/
theorem getJobStatistics_estimated_remaining_time_witness :
    ∃ s, getJobStatistics 0 [plainTask .completed 4, plainTask .pending 0] = some s ∧
      s.estimatedRemainingTime =
        amendedRemainingTime [plainTask .completed 4, plainTask .pending 0] :=
  getJobStatistics_estimated_remaining_time 0 _ (List.cons_ne_nil _ _)

/-! ### C5: retry count never exceeds max_retries -/

theorem shouldRetry_true_retryCount_lt (r : FailureReason) (n : Nat)
    (h : shouldRetry r n = true) : n < 3 := by
  unfold shouldRetry at h
  split at h
  · exact absurd h (by simp)
  · split at h
    · exact absurd h (by simp)
    · exact of_decide_eq_true h

theorem executeTaskFailure_maxRetries (t : TaskInfo) (r : FailureReason) (m : String) :
    (executeTaskFailure t r m).maxRetries = t.maxRetries := by
  by_cases hr : shouldRetry r t.retryCount = true <;>
    simp [executeTaskFailure, markTaskFailed, hr]

theorem executeTaskFailure_retryCount_le (t : TaskInfo) (r : FailureReason) (m : String)
    (h : t.maxRetries = 3) : (executeTaskFailure t r m).retryCount ≤ 3 := by
  by_cases hr : shouldRetry r t.retryCount = true
  · have := shouldRetry_true_retryCount_lt r t.retryCount hr
    simp only [executeTaskFailure, markTaskFailed, hr, if_true]
    omega
  · simp only [executeTaskFailure, markTaskFailed, hr, Bool.false_eq_true, if_false]
    omega

theorem executeFailureSeq_maxRetries (t : TaskInfo) (l : List (FailureReason × String)) :
    (executeFailureSeq t l).maxRetries = t.maxRetries := by
  induction l generalizing t with
  | nil => rfl
  | cons p rest ih =>
    obtain ⟨r, m⟩ := p
    simp only [executeFailureSeq]
    rw [ih, executeTaskFailure_maxRetries]

/-- **C5.**  With the default `max_retries = 3`, after every prefix of any
sequence of failing executions the task's `retry_count` never exceeds its
`max_retries`; and whenever the classifier forbids retry for the classified
reason, one failing execution sets `retry_count = max_retries`. -/
theorem executeTask_retryCount_bounded (t : TaskInfo) (h : t.maxRetries = 3) :
    (∀ fails : List (FailureReason × String), ∀ i, i < fails.length →
      (executeFailureSeq t (fails.take (i + 1))).retryCount ≤
        (executeFailureSeq t (fails.take (i + 1))).maxRetries) ∧
    (∀ r m, shouldRetry r t.retryCount = false →
      (executeTaskFailure t r m).retryCount = t.maxRetries) := by
  constructor
  · intro fails i hi
    rw [executeFailureSeq_maxRetries, h]
    rw [List.take_succ, List.getElem?_eq_getElem hi]
    have hsnoc : ∀ s : TaskInfo, ∀ a : List (FailureReason × String),
        ∀ p : FailureReason × String,
        executeFailureSeq s (a ++ [p]) = executeTaskFailure (executeFailureSeq s a) p.1 p.2 := by
      intro s a p
      induction a generalizing s with
      | nil => rfl
      | cons q rest ih =>
        obtain ⟨r, m⟩ := q
        simp only [List.cons_append, executeFailureSeq]
        exact ih _
    rw [Option.toList_some, hsnoc]
    exact executeTaskFailure_retryCount_le _ _ _
      (by rw [executeFailureSeq_maxRetries, h])
  · intro r m hr
    simp only [executeTaskFailure, markTaskFailed, hr, Bool.false_eq_true, if_false]

/-- A witness run of C5 on a concrete task and failure sequence. -/
theorem executeTask_retryCount_bounded_witness :
    (executeFailureSeq (plainTask .pending 0)
      ([(FailureReason.unknown, "boom"), (FailureReason.diskFull, "no space left")].take 2)).retryCount ≤
      (executeFailureSeq (plainTask .pending 0)
        ([(FailureReason.unknown, "boom"), (FailureReason.diskFull, "no space left")].take 2)).maxRetries ∧
    (executeTaskFailure (plainTask .pending 0) FailureReason.fileNotFound "missing").retryCount =
      (plainTask .pending 0).maxRetries :=
  ⟨(executeTask_retryCount_bounded (plainTask .pending 0) rfl).1 _ 1 (by decide),
   (executeTask_retryCount_bounded (plainTask .pending 0) rfl).2 _ _ (by decide)⟩

/-! ### C9: unique output filenames -/

theorem uniqueFilenameLoop_spec (fsExists : String → Bool) (mk : Nat → String)
    (fallback : String) :
    ∀ fuel c,
      (∃ k, c ≤ k ∧ k < c + fuel ∧
        uniqueFilenameLoop fsExists mk fallback c fuel = mk k ∧
        fsExists (mk k) = false ∧ ∀ j, c ≤ j → j < k → fsExists (mk j) = true) ∨
      ((∀ j, c ≤ j → j < c + fuel → fsExists (mk j) = true) ∧
        uniqueFilenameLoop fsExists mk fallback c fuel = fallback) := by
  intro fuel
  induction fuel with
  | zero => exact fun c => Or.inr ⟨fun j h1 h2 => absurd h2 (by omega), rfl⟩
  | succ fuel ih =>
    intro c
    by_cases hc : fsExists (mk c) = true
    · rcases ih (c + 1) with ⟨k, hk1, hk2, hk3, hk4, hk5⟩ | ⟨hall, hfb⟩
      · refine Or.inl ⟨k, by omega, by omega, ?_, hk4, ?_⟩
        · rw [uniqueFilenameLoop, if_pos hc]; exact hk3
        · intro j h1 h2
          rcases Nat.eq_or_lt_of_le h1 with h | h
          · rwa [← h]
          · exact hk5 j h h2
      · refine Or.inr ⟨?_, ?_⟩
        · intro j h1 h2
          rcases Nat.eq_or_lt_of_le h1 with h | h
          · rwa [← h]
          · exact hall j h (by omega)
        · rw [uniqueFilenameLoop, if_pos hc]; exact hfb
    · refine Or.inl ⟨c, le_refl c, by omega, ?_, by simpa using hc,
        fun j h1 h2 => absurd h2 (by omega)⟩
      rw [uniqueFilenameLoop, if_neg hc]

/-- **C9, counterexample.**  On a filesystem where every path exists the
generator runs through all 999 counters and returns the microsecond-fallback
name *without* an existence check — the returned path names an existing file,
so an existing file can be silently overwritten. -/
theorem generateUniqueFilename_overwrite_cex :
    generateUniqueFilenameForTask (fun _ => true) "out" "merged" "20240101_000000"
        "20240101_000000_000001" "mp4" =
      joinPath "out" (fallbackFilename "merged" "20240101_000000_000001" "mp4") ∧
    (fun _ => true : String → Bool)
      (generateUniqueFilenameForTask (fun _ => true) "out" "merged" "20240101_000000"
        "20240101_000000_000001" "mp4") = true := by
  refine ⟨?_, rfl⟩
  rcases uniqueFilenameLoop_spec (fun _ => true)
      (fun c => joinPath "out" (counterFilename "merged" "20240101_000000" "mp4" c))
      (joinPath "out" (fallbackFilename "merged" "20240101_000000_000001" "mp4")) 999 1 with
    ⟨k, -, -, -, hk4, -⟩ | ⟨-, hfb⟩
  · exact absurd hk4 (by simp)
  · exact hfb

/-- **C9, amended.**  The generator tries `{base}_{timestamp}_{counter:03d}.{ext}`
with the counter increasing from 1, and every *counter-form* path it returns
does not exist (all smaller counters having existed); only when counters 1–999
are all taken does it return the microsecond-timestamp fallback name, which is
not existence-checked. -/
theorem generateUniqueFilename_counter_order (fsExists : String → Bool)
    (outputFolder baseName timestamp microTimestamp extension : String) :
    (∃ c, 1 ≤ c ∧ c ≤ 999 ∧
      generateUniqueFilenameForTask fsExists outputFolder baseName timestamp
          microTimestamp extension =
        joinPath outputFolder (counterFilename baseName timestamp extension c) ∧
      fsExists (joinPath outputFolder (counterFilename baseName timestamp extension c)) =
        false ∧
      ∀ j, 1 ≤ j → j < c →
        fsExists (joinPath outputFolder (counterFilename baseName timestamp extension j)) =
          true) ∨
    ((∀ j, 1 ≤ j → j ≤ 999 →
        fsExists (joinPath outputFolder (counterFilename baseName timestamp extension j)) =
          true) ∧
      generateUniqueFilenameForTask fsExists outputFolder baseName timestamp
          microTimestamp extension =
        joinPath outputFolder (fallbackFilename baseName microTimestamp extension)) := by
  rcases uniqueFilenameLoop_spec fsExists
      (fun c => joinPath outputFolder (counterFilename baseName timestamp extension c))
      (joinPath outputFolder (fallbackFilename baseName microTimestamp extension)) 999 1 with
    ⟨k, hk1, hk2, hk3, hk4, hk5⟩ | ⟨hall, hfb⟩
  · exact Or.inl ⟨k, hk1, by omega, hk3, hk4, hk5⟩
  · exact Or.inr ⟨fun j h1 h2 => hall j h1 (by omega), hfb⟩

/-! ### C3: deletion retry waits and delayed cleanup -/

theorem deleteRetryLoop_sleep_getOpt (outcome : Nat → UnlinkOutcome) (wait : Nat → ℚ) :
    ∀ rem attempt i x, ((deleteRetryLoop outcome wait attempt rem).1).get? i = some x →
      x = wait (attempt + i) := by
  intro rem
  induction rem with
  | zero => intro attempt i x hx; simp [deleteRetryLoop] at hx
  | succ rem ih =>
    intro attempt i x hx
    rcases hout : outcome attempt with _ | _ | _ <;>
      simp only [deleteRetryLoop, hout] at hx
    · simp at hx
    · by_cases hrem : rem = 0
      · rw [if_pos hrem] at hx; simp at hx
      · rw [if_neg hrem] at hx
        cases i with
        | zero =>
          have hax : wait attempt = x := by simpa using hx
          rw [← hax, Nat.add_zero]
        | succ i =>
          have := ih (attempt + 1) i x (by simpa using hx)
          rwa [show attempt + 1 + i = attempt + (i + 1) from by omega] at this
    · simp at hx

theorem deleteRetryLoop_sleep_get (outcome : Nat → UnlinkOutcome) (wait : Nat → ℚ) :
    ∀ rem attempt i, ∀ h : i < ((deleteRetryLoop outcome wait attempt rem).1).length,
      ((deleteRetryLoop outcome wait attempt rem).1).get ⟨i, h⟩ = wait (attempt + i) := by
  intro rem attempt i h
  exact deleteRetryLoop_sleep_getOpt outcome wait rem attempt i _
    (List.get?_eq_get h)

theorem deleteRetryLoop_scheduled_iff (outcome : Nat → UnlinkOutcome) (wait : Nat → ℚ) :
    ∀ rem attempt, (deleteRetryLoop outcome wait attempt rem).2.1 = true ↔
      (deleteRetryLoop outcome wait attempt rem).2.2 = .raisedLocked := by
  intro rem
  induction rem with
  | zero => intro attempt; simp [deleteRetryLoop]
  | succ rem ih =>
    intro attempt
    rcases hout : outcome attempt with _ | _ | _ <;>
      simp only [deleteRetryLoop, hout]
    · simp
    · by_cases hrem : rem = 0
      · rw [if_pos hrem]; simp
      · rw [if_neg hrem]; exact ih (attempt + 1)
    · simp

theorem deleteRetryLoop_allLocked (outcome : Nat → UnlinkOutcome) (wait : Nat → ℚ)
    (hlocked : ∀ a, outcome a = .lockedError) :
    ∀ rem attempt, 1 ≤ rem →
      (deleteRetryLoop outcome wait attempt rem).2.2 = .raisedLocked := by
  intro rem
  induction rem with
  | zero => intro attempt h; omega
  | succ rem ih =>
    intro attempt _
    simp only [deleteRetryLoop, hlocked attempt]
    by_cases hrem : rem = 0
    · rw [if_pos hrem]
    · rw [if_neg hrem]; exact ih (attempt + 1) (by omega)

/-- **C3, counterexample.**  On a permanently locked file,
`_delete_file_with_retry` (general temp files, default `max_retries = 5`)
sleeps `0.5·(attempt+1)` seconds — `[0.5, 1, 1.5, 2]` — not the
`min(2^attempt, 10)` schedule `[1, 2, 4, 8]` the claim states for every
file class. -/
theorem deleteFileWithRetry_wait_formula_cex :
    (deleteFileWithRetry (fun _ => .lockedError) 5).1 = [1/2, 1, 3/2, 2] ∧
    ([1/2, 1, 3/2, 2] : List ℚ) ≠
      [min ((2 : ℚ) ^ 0) 10, min ((2 : ℚ) ^ 1) 10, min ((2 : ℚ) ^ 2) 10,
        min ((2 : ℚ) ^ 3) 10] := by
  constructor
  · norm_num [deleteFileWithRetry, deleteRetryLoop, generalDeleteWait]
  · intro hcontra
    rw [List.cons.injEq] at hcontra
    have h1 := hcontra.1
    norm_num [min_def] at h1

/-- **C3, amended.**  On a locking failure, `_delete_file_with_retry`
(general temp files, default `max_retries = 5`) waits `0.5·(attempt+1)`
seconds before the next attempt, while
`_delete_moviepy_temp_file_with_retry` (MoviePy temp files, default
`max_retries = 8`) waits `min(2^attempt, 10)` seconds; in both, the delayed
cleanup is scheduled exactly when the call ends by re-raising a locking
failure on the last attempt — in particular whenever every attempt hits a
locking failure — and the detached cleanup sleeps 5 seconds and never
propagates an error. -/
theorem deleteWithRetry_waits_and_delayed_cleanup (outcome : Nat → UnlinkOutcome)
    (maxRetries : Nat) :
    (∀ i, ∀ h : i < ((deleteFileWithRetry outcome maxRetries).1).length,
      ((deleteFileWithRetry outcome maxRetries).1).get ⟨i, h⟩ =
        (1 / 2) * ((i : ℚ) + 1)) ∧
    (∀ i, ∀ h : i < ((deleteMoviepyTempFileWithRetry outcome maxRetries).1).length,
      ((deleteMoviepyTempFileWithRetry outcome maxRetries).1).get ⟨i, h⟩ =
        min ((2 : ℚ) ^ i) 10) ∧
    ((deleteFileWithRetry outcome maxRetries).2.1 = true ↔
      (deleteFileWithRetry outcome maxRetries).2.2 = .raisedLocked) ∧
    ((deleteMoviepyTempFileWithRetry outcome maxRetries).2.1 = true ↔
      (deleteMoviepyTempFileWithRetry outcome maxRetries).2.2 = .raisedLocked) ∧
    ((∀ a, outcome a = .lockedError) → 1 ≤ maxRetries →
      (deleteFileWithRetry outcome maxRetries).2.2 = .raisedLocked ∧
      (deleteMoviepyTempFileWithRetry outcome maxRetries).2.2 = .raisedLocked) ∧
    (∀ fileStillExists unlinkRaises,
      (delayedCleanup fileStillExists unlinkRaises).1 = 5 ∧
      (delayedCleanup fileStillExists unlinkRaises).2.2 = false) := by
  refine ⟨?_, ?_, ?_, ?_, ?_, fun _ _ => ⟨rfl, rfl⟩⟩
  · intro i h
    have := deleteRetryLoop_sleep_get outcome generalDeleteWait maxRetries 0 i h
    simpa [generalDeleteWait] using this
  · intro i h
    have := deleteRetryLoop_sleep_get outcome moviepyDeleteWait maxRetries 0 i h
    simpa [moviepyDeleteWait] using this
  · exact deleteRetryLoop_scheduled_iff outcome generalDeleteWait maxRetries 0
  · exact deleteRetryLoop_scheduled_iff outcome moviepyDeleteWait maxRetries 0
  · intro hlocked hge
    exact ⟨deleteRetryLoop_allLocked outcome generalDeleteWait hlocked maxRetries 0 hge,
      deleteRetryLoop_allLocked outcome moviepyDeleteWait hlocked maxRetries 0 hge⟩

/-- A witness run of the amended C3 statement on a permanently locked file. -/
theorem deleteWithRetry_waits_witness :
    ((deleteFileWithRetry (fun _ => UnlinkOutcome.lockedError) 5).1).get ⟨1, by decide⟩ =
      (1 / 2) * ((1 : ℚ) + 1) ∧
    ((deleteMoviepyTempFileWithRetry (fun _ => UnlinkOutcome.lockedError) 8).1).get
        ⟨6, by decide⟩ = min ((2 : ℚ) ^ 6) 10 ∧
    (deleteFileWithRetry (fun _ => UnlinkOutcome.lockedError) 5).2.2 =
      DeleteResult.raisedLocked :=
  ⟨(deleteWithRetry_waits_and_delayed_cleanup (fun _ => .lockedError) 5).1 1 (by decide),
   (deleteWithRetry_waits_and_delayed_cleanup (fun _ => .lockedError) 8).2.1 6 (by decide),
   ((deleteWithRetry_waits_and_delayed_cleanup (fun _ => .lockedError) 5).2.2.2.2.1
     (fun _ => rfl) (by omega)).1⟩

/-! ### C6: cancel_all cleanup and return value -/

theorem cleanupTempStep_at (fs : FileSystem) (p q : String) :
    cleanupTempStep fs p q = if q = p then none else fs q := by
  unfold cleanupTempStep unlinkFile
  by_cases hp : (fs p).isSome
  · rw [if_pos hp]
  · rw [if_neg hp]
    by_cases hq : q = p
    · rw [if_pos hq, hq]
      exact Option.not_isSome_iff_eq_none.mp hp
    · rw [if_neg hq]

theorem tempFold_preserves_none (temps : List String) :
    ∀ fs : FileSystem, ∀ q, fs q = none → (temps.foldl cleanupTempStep fs) q = none := by
  induction temps with
  | nil => intro fs q h; exact h
  | cons p rest ih =>
    intro fs q h
    refine ih _ q ?_
    rw [cleanupTempStep_at]
    split <;> simp [h]

theorem tempFold_mem_none (temps : List String) :
    ∀ fs : FileSystem, ∀ q ∈ temps, (temps.foldl cleanupTempStep fs) q = none := by
  induction temps with
  | nil => intro fs q h; cases h
  | cons p rest ih =>
    intro fs q hq
    rcases List.mem_cons.mp hq with h | h
    · by_cases hmem : q ∈ rest
      · exact ih _ q hmem
      · refine tempFold_preserves_none rest _ q ?_
        rw [cleanupTempStep_at, if_pos h]
    · exact ih _ q h


theorem cleanupOutputStep_fsNone (now : ℚ) (fs : FileSystem) (p : String)
    (hfs : fs p = none) : cleanupOutputStep now fs p = fs := by
  unfold cleanupOutputStep; rw [hfs]

theorem cleanupOutputStep_incomplete (now : ℚ) (fs : FileSystem) (p : String)
    (st : FileStat) (hfs : fs p = some st) (hinc : incompleteOutput now st) :
    cleanupOutputStep now fs p = unlinkFile fs p := by
  unfold cleanupOutputStep; simp only [hfs]; rw [if_pos hinc]

theorem cleanupOutputStep_keep (now : ℚ) (fs : FileSystem) (p : String)
    (st : FileStat) (hfs : fs p = some st) (hinc : ¬incompleteOutput now st) :
    cleanupOutputStep now fs p = fs := by
  unfold cleanupOutputStep; simp only [hfs]; rw [if_neg hinc]

theorem cleanupOutputStep_some (now : ℚ) (fs : FileSystem) (p q : String)
    (stt : FileStat) (h : cleanupOutputStep now fs p q = some stt) :
    fs q = some stt ∧ (q = p → ¬incompleteOutput now stt) := by
  rcases hfs : fs p with _ | st
  · rw [cleanupOutputStep_fsNone now fs p hfs] at h
    refine ⟨h, fun hq => ?_⟩
    exfalso
    rw [hq, hfs] at h
    cases h
  · by_cases hinc : incompleteOutput now st
    · rw [cleanupOutputStep_incomplete now fs p st hfs hinc] at h
      unfold unlinkFile at h
      by_cases hq : q = p
      · rw [if_pos hq] at h; cases h
      · rw [if_neg hq] at h; exact ⟨h, fun hc => absurd hc hq⟩
    · rw [cleanupOutputStep_keep now fs p st hfs hinc] at h
      refine ⟨h, fun hq => ?_⟩
      rw [hq, hfs] at h
      obtain rfl : st = stt := by injection h
      exact hinc

theorem cleanupOutputStep_preserves_none (now : ℚ) (fs : FileSystem) (p q : String)
    (h : fs q = none) : cleanupOutputStep now fs p q = none := by
  rcases hfs : fs p with _ | st
  · rw [cleanupOutputStep_fsNone now fs p hfs]; exact h
  · by_cases hinc : incompleteOutput now st
    · rw [cleanupOutputStep_incomplete now fs p st hfs hinc]
      unfold unlinkFile
      split <;> simp [h]
    · rw [cleanupOutputStep_keep now fs p st hfs hinc]; exact h

theorem outputFold_preserves_none (now : ℚ) (outs : List String) :
    ∀ fs : FileSystem, ∀ q, fs q = none →
      (outs.foldl (cleanupOutputStep now) fs) q = none := by
  induction outs with
  | nil => intro fs q h; exact h
  | cons p rest ih =>
    intro fs q h
    exact ih _ q (cleanupOutputStep_preserves_none now fs p q h)

theorem outputFold_some (now : ℚ) (outs : List String) :
    ∀ fs : FileSystem, ∀ q stt, (outs.foldl (cleanupOutputStep now) fs) q = some stt →
      fs q = some stt ∧ (q ∈ outs → ¬incompleteOutput now stt) := by
  induction outs with
  | nil => intro fs q stt h; exact ⟨h, fun hc => by cases hc⟩
  | cons p rest ih =>
    intro fs q stt h
    obtain ⟨hstep, hmem⟩ := ih _ q stt h
    obtain ⟨hfs, hp⟩ := cleanupOutputStep_some now fs p q stt hstep
    refine ⟨hfs, fun hq => ?_⟩
    rcases List.mem_cons.mp hq with h' | h'
    · exact hp h'
    · exact hmem h'

/-- **C6, counterexample.**  When no process is tracked, `cancel_all` returns
`True` immediately and never reaches `_cleanup_files`, so a registered temp
file (left behind after `remove_process`) is *not* deleted even though
cleanup-on-cancel is enabled. -/
theorem cancelAll_no_process_skips_cleanup_cex :
    (cancelAll ([] : List Nat) (fun _ => true) (fun _ => true) true 0
        (fun p => if p = "a.tmp" then some ⟨0, 0⟩ else none) ["a.tmp"] []).1 = true ∧
    (cancelAll ([] : List Nat) (fun _ => true) (fun _ => true) true 0
        (fun p => if p = "a.tmp" then some ⟨0, 0⟩ else none) ["a.tmp"] []).2.1 "a.tmp" =
      some ⟨0, 0⟩ := by
  constructor <;> rfl

/-- **C6, amended.**  Provided at least one process is tracked at entry (the
empty case returns `True` without any cleanup), a `cancel_all` call with
cleanup-on-cancel enabled deletes every registered temp file, deletes every
registered output file that is smaller than 1MB or modified within the last
30 seconds (any surviving registered output is therefore ≥ 1MB and older
than 30s), and returns `True` exactly when the tracked-process set ended up
empty. -/
theorem cancelAll_cleanup_and_return (procs : List Nat)
    (gracefulExit polledOff : Nat → Bool) (now : ℚ) (fs : FileSystem)
    (tempFiles outputFiles : List String) (hprocs : procs ≠ []) :
    (∀ t ∈ tempFiles,
      (cancelAll procs gracefulExit polledOff true now fs tempFiles outputFiles).2.1 t =
        none) ∧
    (∀ o ∈ outputFiles, ∀ stt,
      (cancelAll procs gracefulExit polledOff true now fs tempFiles outputFiles).2.1 o =
          some stt → ¬incompleteOutput now stt) ∧
    ((cancelAll procs gracefulExit polledOff true now fs tempFiles outputFiles).1 = true ↔
      (cancelAll procs gracefulExit polledOff true now fs tempFiles
        outputFiles).2.2.1 = []) := by
  have hne : ¬procs.isEmpty = true := by simpa [List.isEmpty_iff] using hprocs
  unfold cancelAll
  rw [if_neg hne]
  refine ⟨?_, ?_, by simp [List.isEmpty_iff]⟩
  · intro t ht
    show cleanupFiles now fs tempFiles outputFiles t = none
    unfold cleanupFiles
    exact outputFold_preserves_none now outputFiles _ t (tempFold_mem_none tempFiles fs t ht)
  · intro o ho stt h
    have h' : (outputFiles.foldl (cleanupOutputStep now)
        (tempFiles.foldl cleanupTempStep fs)) o = some stt := h
    exact (outputFold_some now outputFiles _ o stt h').2 ho

/-- A sample filesystem for the C6 witness: one small temp file and one
large, old output file. -/
def witnessFS : FileSystem := fun p =>
  if p = "a.tmp" then some ⟨100, 0⟩
  else if p = "big.mp4" then some ⟨2097152, -100⟩
  else none

/-- A witness run of the amended C6 statement: one tracked process, the temp
file gets deleted, and the return value matches emptiness of the remaining
process set. -/
theorem cancelAll_cleanup_and_return_witness :
    (cancelAll [7] (fun _ => true) (fun _ => true) true 0 witnessFS
        ["a.tmp"] ["big.mp4"]).2.1 "a.tmp" = none ∧
    ((cancelAll [7] (fun _ => true) (fun _ => true) true 0 witnessFS
        ["a.tmp"] ["big.mp4"]).1 = true ↔
      (cancelAll [7] (fun _ => true) (fun _ => true) true 0 witnessFS
        ["a.tmp"] ["big.mp4"]).2.2.1 = []) :=
  ⟨(cancelAll_cleanup_and_return [7] (fun _ => true) (fun _ => true) 0 witnessFS
      ["a.tmp"] ["big.mp4"] (List.cons_ne_nil _ _)).1 "a.tmp" (by simp),
   (cancelAll_cleanup_and_return [7] (fun _ => true) (fun _ => true) 0 witnessFS
      ["a.tmp"] ["big.mp4"] (List.cons_ne_nil _ _)).2.2⟩

/-! ### C10: constructor validation -/

/-- A persisted dedup state matching materials `[0]`, `per_video = 1`, with
one already-used sequence. -/
def savedDedupSample : PersistedDedupState Nat :=
  { materials := [0], perVideo := 1, usedSequences := [[0]], usedPairs := [],
    materialCount := [(0, 1)] }

/-- **C10, counterexample.**  The constructor's arguments include the
persistence file; when one is given and holds a matching saved state,
construction succeeds with *non-empty* `used_sequences` — the claim's
"construction succeeds with empty `used_sequences`, `used_pairs`, and
`material_count` for all other arguments" fails. -/
theorem mkSelector_persisted_state_cex :
    ∃ st, mkSelector [0] (1 : Int) (some savedDedupSample) = Except.ok st ∧
      st.usedSequences ≠ [] :=
  ⟨_, rfl, by decide⟩

/-- **C10, amended.**  Construction raises `ValueError` (producing no
instance) exactly when the materials list is empty, `per_video ≤ 0`, or
`per_video` exceeds the material count; for all other arguments construction
succeeds with the given materials and `per_video` stored, and — unless a
persistence file holding a saved state whose material set and `per_video`
match was supplied (one was given *and* passes `load_state`'s consistency
check) — the new instance has empty `used_sequences`, `used_pairs` and
`material_count`. -/
theorem mkSelector_validation (materials : List Nat) (perVideo : Int)
    (persisted : Option (PersistedDedupState Nat)) :
    ((∃ e, mkSelector materials perVideo persisted = Except.error e) ↔
      (materials = [] ∨ perVideo ≤ 0 ∨ (materials.length : Int) < perVideo)) ∧
    (∀ st, mkSelector materials perVideo persisted = Except.ok st →
      st.materials = materials ∧ st.perVideo = perVideo.toNat ∧
      ((∀ saved, persisted = some saved →
          ¬(sameElements saved.materials materials = true ∧ saved.perVideo = perVideo)) →
        st.usedSequences = [] ∧ st.usedPairs = [] ∧ ∀ m, st.materialCount m = 0)) := by
  constructor
  · unfold mkSelector
    split_ifs with h1 h2 h3
    · simp only [List.isEmpty_iff] at h1
      exact ⟨fun _ => Or.inl h1, fun _ => ⟨_, rfl⟩⟩
    · exact ⟨fun _ => Or.inr (Or.inl h2), fun _ => ⟨_, rfl⟩⟩
    · exact ⟨fun _ => Or.inr (Or.inr h3), fun _ => ⟨_, rfl⟩⟩
    · simp only [List.isEmpty_iff] at h1
      constructor
      · rintro ⟨e, he⟩
        cases he
      · rintro (h | h | h)
        · exact absurd h h1
        · exact absurd h h2
        · exact absurd h h3
  · intro st hst
    unfold mkSelector at hst
    split_ifs at hst
    obtain rfl : loadState (initState materials perVideo.toNat) perVideo persisted = st := by
      injection hst
    refine ⟨?_, ?_, ?_⟩
    · cases persisted with
      | none => rfl
      | some saved =>
        simp only [loadState, initState]
        split_ifs <;> rfl
    · cases persisted with
      | none => rfl
      | some saved =>
        simp only [loadState, initState]
        split_ifs <;> rfl
    · intro hmismatch
      cases persisted with
      | none => exact ⟨rfl, rfl, fun m => rfl⟩
      | some saved =>
        have hcond : ¬((sameElements saved.materials materials &&
            decide (saved.perVideo = perVideo)) = true) := by
          intro hc
          simp only [Bool.and_eq_true, decide_eq_true_eq] at hc
          exact hmismatch saved rfl hc
        simp only [loadState, initState]
        rw [if_neg hcond]
        exact ⟨rfl, rfl, fun m => rfl⟩

/-- A saved dedup state whose material set and `per_video` both differ from
the constructor arguments, so `load_state`'s consistency check discards it. -/
def mismatchedDedupSample : PersistedDedupState Nat :=
  { materials := [5], perVideo := 1, usedSequences := [[5]], usedPairs := [],
    materialCount := [(5, 1)] }

/-- A witness run of the amended C10 statement: an oversized `per_video` is
rejected, and construction with a mismatched saved state yields the empty
dedup state. -/
theorem mkSelector_validation_witness :
    (∃ e, mkSelector [0, 1] (5 : Int) (none : Option (PersistedDedupState Nat)) =
      Except.error e) ∧
    (loadState (initState [0, 1] (2 : Int).toNat) 2
      (some mismatchedDedupSample)).usedSequences = [] ∧
    (loadState (initState [0, 1] (2 : Int).toNat) 2
      (some mismatchedDedupSample)).usedPairs = [] :=
  have h := ((mkSelector_validation [0, 1] 2 (some mismatchedDedupSample)).2
    (loadState (initState [0, 1] (2 : Int).toNat) 2 (some mismatchedDedupSample)) rfl).2.2
    (by intro saved hsv; cases hsv; decide)
  ⟨(mkSelector_validation [0, 1] 5 none).1.mpr (by norm_num), h.1, h.2.1⟩

/-! ### Selector lemmas -/

theorem isValidSequence_iff {α : Type} [DecidableEq α] (st : SelectorState α)
    (s : List α) :
    isValidSequence st s = true ↔
      s ∉ st.usedSequences ∧ ∀ p ∈ extractConsecutivePairs s, p ∉ st.usedPairs := by
  unfold isValidSequence
  split_ifs with h1 h2
  · simp [h1]
  · simp only [List.any_eq_true, decide_eq_true_eq] at h2
    obtain ⟨p, hp, hpu⟩ := h2
    constructor
    · intro h; exact absurd h (by simp)
    · rintro ⟨-, hall⟩
      exact absurd hpu (hall p hp)
  · simp only [List.any_eq_true, decide_eq_true_eq] at h2
    push_neg at h2
    exact ⟨fun _ => ⟨h1, h2⟩, fun _ => rfl⟩

theorem mem_usedSequences_recordSequence {α : Type} [DecidableEq α]
    (st : SelectorState α) (s r : List α) :
    r ∈ (recordSequence st s).usedSequences ↔ r = s ∨ r ∈ st.usedSequences := by
  simp [recordSequence]

theorem mem_usedPairs_recordSequence {α : Type} [DecidableEq α]
    (st : SelectorState α) (s : List α) (p : α × α) :
    p ∈ (recordSequence st s).usedPairs ↔
      p ∈ extractConsecutivePairs s ∨ p ∈ st.usedPairs := by
  simp [recordSequence]

theorem getNextCore_snd {α : Type} [DecidableEq α] (st : SelectorState α)
    (o : SelOracle α) :
    (getNextCore st o).2 = recordSequence st (getNextCore st o).1 := by
  unfold getNextCore
  cases htry : tryAttempts st st.materials o 0 maxTries <;> simp [htry]

theorem stateAfter_append {α : Type} [DecidableEq α] (st : SelectorState α)
    (a b : List (SelOracle α)) :
    stateAfter st (a ++ b) = stateAfter (stateAfter st a) b := by
  induction a generalizing st with
  | nil => rfl
  | cons o rest ih =>
    simp only [List.cons_append, stateAfter]
    exact ih _

theorem mem_usedSequences_stateAfter {α : Type} [DecidableEq α]
    (os : List (SelOracle α)) :
    ∀ st : SelectorState α, ∀ r, r ∈ st.usedSequences →
      r ∈ (stateAfter st os).usedSequences := by
  induction os with
  | nil => intro st r h; exact h
  | cons o rest ih =>
    intro st r h
    refine ih _ r ?_
    rw [getNextCore_snd]
    exact (mem_usedSequences_recordSequence _ _ _).mpr (Or.inr h)

theorem mem_usedPairs_stateAfter {α : Type} [DecidableEq α] (os : List (SelOracle α)) :
    ∀ st : SelectorState α, ∀ p, p ∈ st.usedPairs →
      p ∈ (stateAfter st os).usedPairs := by
  induction os with
  | nil => intro st p h; exact h
  | cons o rest ih =>
    intro st p h
    refine ih _ p ?_
    rw [getNextCore_snd]
    exact (mem_usedPairs_recordSequence _ _ _).mpr (Or.inr h)

theorem resultAt_mem_after_succ {α : Type} [DecidableEq α] (st : SelectorState α)
    (os : List (SelOracle α)) (i : Nat) (hi : i < os.length) :
    resultAt st os i ∈ (stateAfter st (os.take (i + 1))).usedSequences ∧
    ∀ p ∈ extractConsecutivePairs (resultAt st os i),
      p ∈ (stateAfter st (os.take (i + 1))).usedPairs := by
  have hgetD : os.getD i emptyOracle = os[i] := by
    rw [List.getD_eq_getElem?_getD, List.getElem?_eq_getElem hi]
    rfl
  rw [List.take_succ, List.getElem?_eq_getElem hi, Option.toList_some, stateAfter_append]
  have hstep : stateAfter (stateAfter st (os.take i)) [os[i]] =
      recordSequence (stateAfter st (os.take i)) (resultAt st os i) := by
    show (getNextCore (stateAfter st (os.take i)) os[i]).2 = _
    rw [getNextCore_snd]
    unfold resultAt
    rw [hgetD]
  rw [hstep]
  exact ⟨(mem_usedSequences_recordSequence _ _ _).mpr (Or.inl rfl),
    fun p hp => (mem_usedPairs_recordSequence _ _ _).mpr (Or.inl hp)⟩

theorem resultAt_prev_mem {α : Type} [DecidableEq α] (st : SelectorState α)
    (os : List (SelOracle α)) (j i : Nat) (hj : j < i) (hi : i < os.length) :
    resultAt st os j ∈ (stateAfter st (os.take i)).usedSequences ∧
    ∀ p ∈ extractConsecutivePairs (resultAt st os j),
      p ∈ (stateAfter st (os.take i)).usedPairs := by
  have hsplit : os.take i = os.take (j + 1) ++ (os.drop (j + 1)).take (i - (j + 1)) := by
    have h : (j + 1) + (i - (j + 1)) = i := by omega
    calc os.take i = os.take ((j + 1) + (i - (j + 1))) := by rw [h]
      _ = _ := List.take_add os (j + 1) (i - (j + 1))
  rw [hsplit, stateAfter_append]
  obtain ⟨h1, h2⟩ := resultAt_mem_after_succ st os j (lt_trans hj hi)
  exact ⟨mem_usedSequences_stateAfter _ _ _ h1,
    fun p hp => mem_usedPairs_stateAfter _ _ _ (h2 p hp)⟩

/-! ### C1: validated draws are fresh and get recorded -/

/-- **C1.**  Over any sequence of `get_next_combination` calls on one
instance (no reset), every call whose returned draw passes
`_is_valid_sequence` at its pre-state returns a tuple that differs, as a
full ordered tuple, from every previously returned tuple; its adjacent
ordered pairs are disjoint from the adjacent pairs of all previously
returned tuples (and from the pre-state's `used_pairs`); and the tuple and
its pairs are added to `used_sequences`/`used_pairs`. -/
theorem getNextCombination_validated_draw_fresh (st : SelectorState Nat)
    (os : List (SelOracle Nat)) (i : Nat) (hi : i < os.length)
    (hvalid : isValidSequence (stateAfter st (os.take i)) (resultAt st os i) = true) :
    (∀ j, j < i → resultAt st os j ≠ resultAt st os i) ∧
    (∀ p ∈ extractConsecutivePairs (resultAt st os i), ∀ j, j < i →
      p ∉ extractConsecutivePairs (resultAt st os j)) ∧
    resultAt st os i ∉ (stateAfter st (os.take i)).usedSequences ∧
    (∀ p ∈ extractConsecutivePairs (resultAt st os i),
      p ∉ (stateAfter st (os.take i)).usedPairs) ∧
    resultAt st os i ∈ (stateAfter st (os.take (i + 1))).usedSequences ∧
    (∀ p ∈ extractConsecutivePairs (resultAt st os i),
      p ∈ (stateAfter st (os.take (i + 1))).usedPairs) := by
  obtain ⟨hseq, hpairs⟩ := (isValidSequence_iff _ _).mp hvalid
  obtain ⟨hrec1, hrec2⟩ := resultAt_mem_after_succ st os i hi
  refine ⟨?_, ?_, hseq, hpairs, hrec1, hrec2⟩
  · intro j hj heq
    obtain ⟨hmem, -⟩ := resultAt_prev_mem st os j i hj hi
    rw [heq] at hmem
    exact hseq hmem
  · intro p hp j hj hpj
    obtain ⟨-, hmemp⟩ := resultAt_prev_mem st os j i hj hi
    exact hpairs p hp (hmemp p hpj)

/-- A fresh selector over five materials, two per video. -/
def sampleSelectorState : SelectorState Nat := initState [0, 1, 2, 3, 4] 2

/-- Oracles for two calls: the weighted pools pick `[0,1]` then `[2,3]` and
sampling takes the pool head-first. -/
def sampleCallOracles : List (SelOracle Nat) :=
  [{ weightedPool := fun _ => [0, 1], sample := fun _ pop k => takeSample pop k },
   { weightedPool := fun _ => [2, 3], sample := fun _ pop k => takeSample pop k }]

/-- A witness run of C1: the second call's validated draw differs from the
first call's result and lands in `used_sequences`. -/
theorem getNextCombination_validated_draw_fresh_witness :
    resultAt sampleSelectorState sampleCallOracles 0 ≠
      resultAt sampleSelectorState sampleCallOracles 1 ∧
    resultAt sampleSelectorState sampleCallOracles 1 ∈
      (stateAfter sampleSelectorState (sampleCallOracles.take 2)).usedSequences :=
  ⟨(getNextCombination_validated_draw_fresh sampleSelectorState sampleCallOracles 1
      (by decide) (by decide)).1 0 (by decide),
   (getNextCombination_validated_draw_fresh sampleSelectorState sampleCallOracles 1
      (by decide) (by decide)).2.2.2.2.1⟩

/-! ### C8: returned lists — length and duplicates -/

theorem SampleOf.length_eq {α : Type} [Inhabited α] {pop sel : List α} {k : Nat}
    (h : SampleOf pop k sel) : sel.length = k := by
  obtain ⟨idxs, -, hlen, -, rfl⟩ := h
  simp [hlen]

theorem sampleOf_nodup {α : Type} [Inhabited α] {pop sel : List α} {k : Nat}
    (hpop : pop.Nodup) (h : SampleOf pop k sel) : sel.Nodup := by
  obtain ⟨idxs, hnd, -, hlt, rfl⟩ := h
  refine List.Nodup.map_on ?_ hnd
  intro i hi j hj hij
  have hi' := hlt i hi
  have hj' := hlt j hj
  rw [List.getD_eq_getElem?_getD, List.getElem?_eq_getElem hi',
    List.getD_eq_getElem?_getD, List.getElem?_eq_getElem hj'] at hij
  simp only [Option.getD_some] at hij
  have := List.Nodup.getElem_inj_iff hpop |>.mp hij
  exact this

theorem takeSample_sampleOf {α : Type} [Inhabited α] (pop : List α) (k : Nat)
    (hk : k ≤ pop.length) : SampleOf pop k (takeSample pop k) :=
  ⟨List.range k, List.nodup_range k, List.length_range k,
    fun _ hi => lt_of_lt_of_le (List.mem_range.mp hi) hk, rfl⟩

theorem uniquePoolAux_nodup {α : Type} [DecidableEq α] :
    ∀ l seen : List α, (uniquePoolAux l seen).Nodup ∧
      ∀ x ∈ uniquePoolAux l seen, x ∉ seen := by
  intro l
  induction l with
  | nil => intro seen; exact ⟨List.nodup_nil, by simp [uniquePoolAux]⟩
  | cons x xs ih =>
    intro seen
    unfold uniquePoolAux
    by_cases hx : x ∈ seen
    · rw [if_pos hx]; exact ih seen
    · rw [if_neg hx]
      obtain ⟨hnd, hni⟩ := ih (x :: seen)
      refine ⟨List.nodup_cons.mpr ⟨fun hmem => ?_, hnd⟩, ?_⟩
      · exact (hni x hmem) (List.mem_cons_self x seen)
      · intro y hy
        rcases List.mem_cons.mp hy with rfl | hy'
        · exact hx
        · intro hseen
          exact hni y hy' (List.mem_cons_of_mem x hseen)

theorem uniquePool_nodup {α : Type} [DecidableEq α] (l : List α) :
    (uniquePool l).Nodup :=
  (uniquePoolAux_nodup l []).1

theorem attemptSelect_spec {α : Type} [DecidableEq α] [Inhabited α]
    (st : SelectorState α) (candidates wp : List α) (sample : List α → Nat → List α)
    (hsample : ∀ pop k, k ≤ pop.length → SampleOf pop k (sample pop k))
    (hclen : st.perVideo ≤ candidates.length) :
    (attemptSelect st candidates wp sample).length = st.perVideo ∧
    (candidates.Nodup → (attemptSelect st candidates wp sample).Nodup) := by
  unfold attemptSelect
  by_cases h : st.perVideo ≤ (uniquePool wp).length
  · rw [if_pos h]
    have hs := hsample _ _ h
    exact ⟨hs.length_eq, fun _ => sampleOf_nodup (uniquePool_nodup wp) hs⟩
  · rw [if_neg h]
    have hs := hsample _ _ hclen
    exact ⟨hs.length_eq, fun hcnd => sampleOf_nodup hcnd hs⟩

theorem tryAttempts_some {α : Type} [DecidableEq α] (st : SelectorState α)
    (candidates : List α) (o : SelOracle α) :
    ∀ fuel i sel, tryAttempts st candidates o i fuel = some sel →
      ∃ j, sel = attemptSelect st candidates (o.weightedPool j) (o.sample j) ∧
        isValidSequence st sel = true := by
  intro fuel
  induction fuel with
  | zero => intro i sel h; cases h
  | succ fuel ih =>
    intro i sel h
    simp only [tryAttempts] at h
    split_ifs at h with hvalid
    · obtain rfl : attemptSelect st candidates (o.weightedPool i) (o.sample i) = sel := by
        injection h
      exact ⟨i, rfl, hvalid⟩
    · exact ih (i + 1) sel h

/-- The selector state whose material list contains the value `0` twice. -/
def dupMaterialsState : SelectorState Nat := initState [0, 0, 1] 2

/-- An oracle whose weighted pools are empty (forcing the uniform fallback
sample over all materials) and whose sample of `[0,0,1]` picks positions 0
and 1 — both holding the value `0`, a legitimate `random.sample` outcome. -/
def dupSampleOracle : SelOracle Nat :=
  { weightedPool := fun _ => []
    sample := fun _ pop k =>
      if pop = [0, 0, 1] ∧ k = 2 then [0, 0] else takeSample pop k }

/-- **C8, counterexample.**  When the materials list holds the same value
twice, `random.sample(materials, per_video)` (the small-pool path, likewise
the 30-attempt fallback) can return that value twice, `_is_valid_sequence`
does not reject it, and `get_next_combination` returns a list with a
duplicated material.  The oracle is a genuine position-sampler
(`SampleOf` holds for every population). -/
theorem getNextCombination_duplicate_material_cex :
    (∀ i pop k, k ≤ pop.length → SampleOf pop k (dupSampleOracle.sample i pop k)) ∧
    ∃ r st', getNextCombination dupMaterialsState dupSampleOracle = some (r, st') ∧
      r.length = dupMaterialsState.perVideo ∧ ¬r.Nodup := by
  constructor
  · intro i pop k hk
    show SampleOf pop k (if pop = [0, 0, 1] ∧ k = 2 then [0, 0] else takeSample pop k)
    by_cases h : pop = [0, 0, 1] ∧ k = 2
    · obtain ⟨rfl, rfl⟩ := h
      rw [if_pos ⟨rfl, rfl⟩]
      exact ⟨[0, 1], by decide, rfl, by decide, rfl⟩
    · rw [if_neg h]
      exact takeSample_sampleOf pop k hk
  · exact ⟨[0, 0], recordSequence dupMaterialsState [0, 0], rfl, rfl, by decide⟩

/-- **C8, amended.**  Every list returned by `get_next_combination` or
`get_next_combination_from_allowed` — including the post-30-attempts
fallback — has length `per_video`; and provided the materials list contains
no duplicate values, it contains no material more than once.  (With a
duplicated materials list the uniform-sample paths can repeat a value, as
the counterexample shows.) -/
theorem getNextCombination_length_nodup (st : SelectorState Nat)
    (allowedMaterials : List Nat) (o : SelOracle Nat)
    (hsample : ∀ i pop k, k ≤ pop.length → SampleOf pop k (o.sample i pop k)) :
    (∀ r st', getNextCombination st o = some (r, st') →
      r.length = st.perVideo ∧ (st.materials.Nodup → r.Nodup)) ∧
    (∀ r st', getNextCombinationFromAllowed st allowedMaterials o = some (r, st') →
      r.length = st.perVideo ∧ (st.materials.Nodup → r.Nodup)) := by
  constructor
  · intro r st' h
    simp only [getNextCombination] at h
    split_ifs at h with hguard
    have hguard' : st.perVideo ≤ st.materials.length := Nat.not_lt.mp hguard
    have hcore : getNextCore st o = (r, st') := Option.some.inj h
    rcases htry : tryAttempts st st.materials o 0 maxTries with _ | sel
    · simp only [getNextCore, htry] at hcore
      have h1 : o.sample maxTries st.materials st.perVideo = r :=
        congrArg Prod.fst hcore
      rw [← h1]
      have hs := hsample maxTries st.materials st.perVideo hguard'
      exact ⟨hs.length_eq, fun hnodup => sampleOf_nodup hnodup hs⟩
    · simp only [getNextCore, htry] at hcore
      have h1 : sel = r := congrArg Prod.fst hcore
      rw [← h1]
      obtain ⟨j, hsel, -⟩ := tryAttempts_some st st.materials o maxTries 0 sel htry
      rw [hsel]
      have hspec := attemptSelect_spec st st.materials (o.weightedPool j) (o.sample j)
        (fun pop k hk => hsample j pop k hk) hguard'
      exact ⟨hspec.1, fun hnodup => hspec.2 hnodup⟩
  · intro r st' h
    simp only [getNextCombinationFromAllowed] at h
    split_ifs at h with hempty hguard
    have hguard' : st.perVideo ≤
        (st.materials.filter fun m => decide (m ∈ allowedMaterials)).length :=
      Nat.not_lt.mp hguard
    rcases htry : tryAttempts st
        (st.materials.filter fun m => decide (m ∈ allowedMaterials)) o 0 maxTries with
      _ | sel
    · simp only [htry] at h
      have hpair := Option.some.inj h
      have h1 : o.sample maxTries
          (st.materials.filter fun m => decide (m ∈ allowedMaterials)) st.perVideo = r :=
        congrArg Prod.fst hpair
      rw [← h1]
      have hs := hsample maxTries _ st.perVideo hguard'
      exact ⟨hs.length_eq, fun hnodup => sampleOf_nodup (hnodup.filter _) hs⟩
    · simp only [htry] at h
      have hpair := Option.some.inj h
      have h1 : sel = r := congrArg Prod.fst hpair
      rw [← h1]
      obtain ⟨j, hsel, -⟩ := tryAttempts_some st _ o maxTries 0 sel htry
      rw [hsel]
      have hspec := attemptSelect_spec st _ (o.weightedPool j) (o.sample j)
        (fun pop k hk => hsample j pop k hk) hguard'
      exact ⟨hspec.1, fun hnodup => hspec.2 (hnodup.filter _)⟩

/-- An oracle with empty weighted pools and head-first sampling. -/
def headSampleOracle : SelOracle Nat :=
  { weightedPool := fun _ => [], sample := fun _ pop k => takeSample pop k }

/-- A witness run of the amended C8 statement on duplicate-free materials. -/
theorem getNextCombination_length_nodup_witness :
    ([0, 1] : List Nat).length = sampleSelectorState.perVideo ∧
    ([0, 1] : List Nat).Nodup :=
  have h := (getNextCombination_length_nodup sampleSelectorState [] headSampleOracle
    (fun _ pop k hk => takeSample_sampleOf pop k hk)).1 [0, 1]
    (recordSequence sampleSelectorState [0, 1]) rfl
  ⟨h.1, h.2 (by decide)⟩
